import Mathlib

/-!
Shallow embedding of the retrieval core of the `ai-agent-rag-system` repository:
the text chunker (`src/document_processor/chunker.py`), the embedding manager
(`src/embeddings/embedding.py`) and the FAISS vector store
(`src/retrieval/vector_store.py`), together with theorems settling the frozen
claims about them.

Modelling conventions:
* Python strings are `List Char`; Python ints are `ℤ` (or `ℕ` where the source
  value is manifestly a count); Python floats are modelled exactly over `ℚ`.
* Mutating methods become state-passing functions; a method that can raise
  returns the post-state it leaves behind together with `Option PyErr`
  (`none` = normal return).
* Third-party library calls (`numpy`, `faiss`, `json`) are modelled by their
  documented behaviour at the call sites the code uses.
-/

set_option maxHeartbeats 1000000

/-- Python-level exceptions that the modelled code paths can actually raise.
The repository defines no error classes of its own (in particular there is no
`ConfigurationError` and no `CorruptStoreError` anywhere in the source). -/
inductive PyErr where
  /-- e.g. `range() arg 3 must not be zero`, or `np.array` on a ragged nested list -/
  | valueError
  /-- e.g. `DocumentMetadata(**m)` where `m` is a string -/
  | typeError
  /-- the FAISS dimension assertion on `index.add` -/
  | dimensionError
  /-- the `assert` statements in the FAISS Python wrapper of `index.search`
  (`replacement_search` asserts the query width equals the index dimension
  and `k > 0`; the C++ side guards the same with `FAISS_THROW_IF_NOT`) -/
  | assertionError
deriving DecidableEq

/-- The whitespace characters stripped by Python `str.strip()` /
split on by `str.split()` (ASCII subset; the claims never involve exotic
Unicode whitespace). -/
def pyWhitespace (c : Char) : Bool :=
  c = ' ' || c = '\t' || c = '\n' || c = '\r' || c = '\x0b' || c = '\x0c'

/-- Python `s.strip()`: drop leading and trailing whitespace. -/
def pyStrip (s : List Char) : List Char :=
  ((s.dropWhile pyWhitespace).reverse.dropWhile pyWhitespace).reverse

/-- Helper for `pySplit2NL`: Python `str.split` on the fixed separator
`"\n\n"`, scanning left to right, non-overlapping. `acc` is the (reversed)
current field. -/
def splitParasAux : List Char → List Char → List (List Char)
  | acc, '\n' :: '\n' :: rest => acc.reverse :: splitParasAux [] rest
  | acc, c :: rest => splitParasAux (c :: acc) rest
  | acc, [] => [acc.reverse]

/-- Python `text.split("\n\n")` (line 49 of `chunker.py`). -/
def pySplit2NL (s : List Char) : List (List Char) :=
  splitParasAux [] s

/-- Helper for `pySplitWs`: Python no-argument `str.split()`, splitting on
whitespace runs and discarding empty fields. -/
def splitWsAux : List Char → List Char → List (List Char)
  | acc, [] => if acc = [] then [] else [acc.reverse]
  | acc, c :: rest =>
    if pyWhitespace c then
      (if acc = [] then [] else [acc.reverse]) ++ splitWsAux [] rest
    else splitWsAux (c :: acc) rest

/-- Python `current_chunk.split()` (line 80 of `chunker.py`). -/
def pySplitWs (s : List Char) : List (List Char) :=
  splitWsAux [] s

/-- Python `' '.join(words)`. -/
def joinSpace : List (List Char) → List Char
  | [] => []
  | [w] => w
  | w :: ws => w ++ ' ' :: joinSpace ws

/-- Python slice `l[a:b]` for a non-negative start `a` and an arbitrary
integer stop `b` (a negative stop counts from the end, exactly as in
Python). -/
def pySlice (l : List Char) (a : ℕ) (b : ℤ) : List Char :=
  let stop : ℤ := if b < 0 then max 0 ((l.length : ℤ) + b) else min b (l.length : ℤ)
  (l.drop a).take (stop - (a : ℤ)).toNat

/-- `TextChunk` dataclass (`chunker.py` lines 9-18). -/
structure TextChunk where
  content : List Char
  chunk_id : String
  source_file : String
  chunk_index : ℕ
  total_chunks : ℕ
  start_char : ℤ
  end_char : ℤ
deriving DecidableEq

deriving instance DecidableEq for Except

/-- The id string `f"{source_file}_chunk_{chunk_index}"`. -/
def mkChunkId (source_file : String) (idx : ℕ) : String :=
  source_file ++ "_chunk_" ++ toString idx

/-- `TextChunker.__init__` (`chunker.py` lines 24-33) stores the two
parameters unvalidated; there is no parameter check anywhere in the class. -/
structure TextChunker where
  chunk_size : ℤ
  chunk_overlap : ℤ
deriving DecidableEq

/-- Loop state of `TextChunker.chunk_text` (`chunker.py` lines 46-54). -/
structure ChunkState where
  chunks : List TextChunk
  current_chunk : List Char
  char_count : ℤ
  chunk_index : ℕ
  start_char : ℤ

/-- Build the `TextChunk` appended by `chunk_text` (the `total_chunks` field
is backfilled later, the code writes `0` here). -/
def mkChunk (content : List Char) (source_file : String) (idx : ℕ) (start_char : ℤ) :
    TextChunk :=
  { content := content
    chunk_id := mkChunkId source_file idx
    source_file := source_file
    chunk_index := idx
    total_chunks := 0
    start_char := start_char
    end_char := start_char + content.length }

/-- One iteration of the `for paragraph in paragraphs` loop of
`TextChunker.chunk_text` (`chunker.py` lines 56-87).  The float expression
`int(len(words) * (chunk_overlap / chunk_size))` is modelled exactly as
truncated integer division. -/
def chunkStep (tc : TextChunker) (source_file : String) (st : ChunkState)
    (para0 : List Char) : ChunkState :=
  let para := pyStrip para0
  if para = [] then st
  else
    let st1 :=
      if st.char_count + (para.length : ℤ) > tc.chunk_size ∧ st.current_chunk ≠ [] then
        let ctext := pyStrip st.current_chunk
        let chunks1 := if ctext ≠ [] then
            st.chunks ++ [mkChunk ctext source_file st.chunk_index st.start_char]
          else st.chunks
        let idx1 := if ctext ≠ [] then st.chunk_index + 1 else st.chunk_index
        let words := pySplitWs st.current_chunk
        let overlap_words : ℤ := Int.tdiv ((words.length : ℤ) * tc.chunk_overlap) tc.chunk_size
        let ncur := if 0 < overlap_words then
            joinSpace (words.drop (words.length - overlap_words.toNat)) ++ ['\n', '\n']
          else []
        { chunks := chunks1
          current_chunk := ncur
          char_count := (ncur.length : ℤ)
          chunk_index := idx1
          start_char := st.start_char + (ctext.length : ℤ) - (ncur.length : ℤ) }
      else st
    { st1 with
      current_chunk := st1.current_chunk ++ para ++ ['\n', '\n']
      char_count := st1.char_count + (para.length : ℤ) + 2 }

/-- `TextChunker.chunk_text` (`chunker.py` lines 35-110). -/
def TextChunker.chunk_text (tc : TextChunker) (text : List Char) (source_file : String) :
    List TextChunk :=
  let paragraphs := pySplit2NL text
  let st := paragraphs.foldl (chunkStep tc source_file) ⟨[], [], 0, 0, 0⟩
  let chunks :=
    if pyStrip st.current_chunk ≠ [] then
      st.chunks ++ [mkChunk (pyStrip st.current_chunk) source_file st.chunk_index st.start_char]
    else st.chunks
  let total := chunks.length
  chunks.map (fun c => { c with total_chunks := total })

/-- The body of the `for i in range(0, len(text), step)` loop of
`TextChunker.chunk_text_by_size` (`chunker.py` lines 126-145), including the
early `break` once the window reaches the end of the text.  The guard
`0 < step` is the precondition under which the caller enters the loop. -/
def bySizeLoop (tc : TextChunker) (text : List Char) (source_file : String)
    (step : ℕ) (i : ℕ) (idx : ℕ) : List TextChunk :=
  if h : i < text.length ∧ 0 < step then
    let e : ℤ := min ((i : ℤ) + tc.chunk_size) (text.length : ℤ)
    let ctext := pyStrip (pySlice text i e)
    if ctext ≠ [] then
      let ch : TextChunk :=
        { content := ctext
          chunk_id := mkChunkId source_file idx
          source_file := source_file
          chunk_index := idx
          total_chunks := 0
          start_char := (i : ℤ)
          end_char := e }
      if (text.length : ℤ) ≤ e then [ch]
      else ch :: bySizeLoop tc text source_file step (i + step) (idx + 1)
    else
      if (text.length : ℤ) ≤ e then []
      else bySizeLoop tc text source_file step (i + step) idx
  else []
termination_by text.length - i
decreasing_by
  all_goals omega

/-- `TextChunker.chunk_text_by_size` (`chunker.py` lines 112-153).  The step
of the Python `range` is `chunk_size - chunk_overlap`: a zero step makes
`range` raise `ValueError`, a negative step makes the range empty (so the
function returns zero chunks), and only a positive step runs the window
loop. -/
def TextChunker.chunk_text_by_size (tc : TextChunker) (text : List Char)
    (source_file : String) : Except PyErr (List TextChunk) :=
  let step : ℤ := tc.chunk_size - tc.chunk_overlap
  if step = 0 then .error .valueError
  else if step < 0 then .ok []
  else
    let chunks := bySizeLoop tc text source_file step.toNat 0 0
    let total := chunks.length
    .ok (chunks.map fun c => { c with total_chunks := total })

/-- `pyStrip` is left-trim followed by Mathlib's right-trim `rdropWhile`. -/
lemma pyStrip_eq_rdropWhile (u : List Char) :
    pyStrip u = List.rdropWhile pyWhitespace (u.dropWhile pyWhitespace) := by
  simp [pyStrip, List.rdropWhile]

/-- Stripping is idempotent, exactly as for Python `str.strip`. -/
lemma pyStrip_idem (s : List Char) : pyStrip (pyStrip s) = pyStrip s := by
  rw [pyStrip_eq_rdropWhile, pyStrip_eq_rdropWhile]
  set t := s.dropWhile pyWhitespace with ht
  have h1 : t.dropWhile pyWhitespace = t := by
    rw [ht]; exact List.dropWhile_idempotent _ _
  have h2 : (List.rdropWhile pyWhitespace t).dropWhile pyWhitespace =
      List.rdropWhile pyWhitespace t := by
    rw [List.dropWhile_eq_self_iff]
    intro hl
    have hpre : List.rdropWhile pyWhitespace t <+: t := List.rdropWhile_prefix _ _
    have hlt : 0 < t.length := lt_of_lt_of_le hl hpre.length_le
    have hget : (List.rdropWhile pyWhitespace t).get ⟨0, hl⟩ = t.get ⟨0, hlt⟩ := by
      simpa using List.IsPrefix.getElem hpre (by simpa using hl)
    rw [hget]
    exact (List.dropWhile_eq_self_iff.mp h1) hlt
  rw [h2, List.rdropWhile_idempotent]

/-- All chunks collected so far have non-empty trimmed content. -/
def chunksOk (l : List TextChunk) : Prop :=
  ∀ c ∈ l, pyStrip c.content ≠ []

lemma chunkStep_preserves (tc : TextChunker) (src : String) (st : ChunkState)
    (para : List Char) (h : chunksOk st.chunks) :
    chunksOk ((chunkStep tc src st para).chunks) := by
  simp only [chunkStep]
  split_ifs with h0 h1 h2 h3
  · exact h
  · intro c hc
    simp only [List.mem_append, List.mem_singleton] at hc
    rcases hc with hc | hc
    · exact h c hc
    · subst hc
      simpa [mkChunk, pyStrip_idem] using h2
  · intro c hc
    simp only [List.mem_append, List.mem_singleton] at hc
    rcases hc with hc | hc
    · exact h c hc
    · subst hc
      simpa [mkChunk, pyStrip_idem] using h2
  · exact h
  · exact h
  · exact h

lemma foldl_chunkStep_preserves (tc : TextChunker) (src : String) :
    ∀ (ps : List (List Char)) (st : ChunkState), chunksOk st.chunks →
      chunksOk ((ps.foldl (chunkStep tc src) st).chunks)
  | [], st, h => h
  | p :: ps, st, h =>
    foldl_chunkStep_preserves tc src ps (chunkStep tc src st p)
      (chunkStep_preserves tc src st p h)

/-- Claim C8: for every input text and every valid chunker configuration, no
segment returned by `TextChunker.chunk_text` has content whose trimmed form is
empty, and empty input yields zero segments. -/
theorem c8_chunk_text_no_blank_segment (tc : TextChunker) (text : List Char)
    (src : String) (hsize : 0 < tc.chunk_size)
    (hov : 0 ≤ tc.chunk_overlap) (hlt : tc.chunk_overlap < tc.chunk_size) :
    (∀ c ∈ tc.chunk_text text src, pyStrip c.content ≠ []) ∧
      tc.chunk_text [] src = [] := by
  constructor
  · intro c hc
    unfold TextChunker.chunk_text at hc
    simp only [List.mem_map] at hc
    obtain ⟨c0, hc0, hceq⟩ := hc
    have hcontent : c.content = c0.content := by rw [← hceq]
    rw [hcontent]
    have hbase : chunksOk (((pySplit2NL text).foldl (chunkStep tc src)
        ⟨[], [], 0, 0, 0⟩).chunks) :=
      foldl_chunkStep_preserves tc src (pySplit2NL text) ⟨[], [], 0, 0, 0⟩
        (by intro x hx; simp at hx)
    set st := (pySplit2NL text).foldl (chunkStep tc src) ⟨[], [], 0, 0, 0⟩ with hst
    by_cases hcur : pyStrip st.current_chunk = []
    · simp only [hcur, ite_not, if_true, if_false] at hc0
      · exact hbase c0 hc0
    · simp only [hcur, ite_not, if_false, if_true] at hc0
      simp only [List.mem_append, List.mem_singleton] at hc0
      rcases hc0 with hc0 | hc0
      · exact hbase c0 hc0
      · subst hc0
        simpa [mkChunk, pyStrip_idem] using hcur
  · rfl

/-- Witness for C8 at a concrete configuration and input. -/
theorem c8_witness :
    (0 : ℤ) < 5 ∧ (0 : ℤ) ≤ 1 ∧ (1 : ℤ) < 5 ∧
      ((∀ c ∈ (TextChunker.mk 5 1).chunk_text ('a' :: 'b' :: '\n' :: '\n' :: ['c']) "doc",
          pyStrip c.content ≠ []) ∧
        (TextChunker.mk 5 1).chunk_text [] "doc" = []) :=
  ⟨by decide, by decide, by decide,
    c8_chunk_text_no_blank_segment ⟨5, 1⟩ ('a' :: 'b' :: '\n' :: '\n' :: ['c']) "doc"
      (by decide) (by decide) (by decide)⟩

/-- Counterexample to claim C4: with `chunk_overlap = chunk_size` the
fixed-size mode raises a plain `ValueError` (from `range` with zero step), and
with `chunk_overlap > chunk_size` it silently returns zero chunks; no
`ConfigurationError` exists — the only errors the modelled code can raise are
Python built-ins. -/
theorem c4_counterexample :
    TextChunker.chunk_text_by_size ⟨3, 3⟩ "abcd".data "doc" = .error .valueError
    ∧ TextChunker.chunk_text_by_size ⟨3, 5⟩ "abcd".data "doc" = .ok []
    ∧ ∀ e : PyErr, e = .valueError ∨ e = .typeError ∨ e = .dimensionError
        ∨ e = .assertionError := by
  refine ⟨by decide, by decide, ?_⟩
  intro e
  cases e
  · exact Or.inl rfl
  · exact Or.inr (Or.inl rfl)
  · exact Or.inr (Or.inr (Or.inl rfl))
  · exact Or.inr (Or.inr (Or.inr rfl))

/-- Claim C4 as amended: `TextChunker.__init__` performs no validation at all
(it stores the two parameters as given); in fixed-size mode
`chunk_overlap = chunk_size` raises `ValueError` (the step of `range` is
zero) and `chunk_overlap > chunk_size` produces an empty result, not a
`ConfigurationError` in either case. -/
theorem c4_amended_no_validation (size overlap : ℤ) (text : List Char) (src : String) :
    (overlap = size →
      TextChunker.chunk_text_by_size ⟨size, overlap⟩ text src = .error .valueError)
    ∧ (size < overlap →
      TextChunker.chunk_text_by_size ⟨size, overlap⟩ text src = .ok [])
    ∧ (TextChunker.mk size overlap).chunk_size = size
    ∧ (TextChunker.mk size overlap).chunk_overlap = overlap := by
  refine ⟨fun h => ?_, fun h => ?_, rfl, rfl⟩
  · subst h
    simp [TextChunker.chunk_text_by_size]
  · have h0 : size - overlap ≠ 0 := by omega
    have h1 : size - overlap < 0 := by omega
    simp [TextChunker.chunk_text_by_size, h0, h1]

/-- Witness for the amended C4 at concrete parameters. -/
theorem c4_amended_witness :
    ((7 : ℤ) = 7 →
      TextChunker.chunk_text_by_size ⟨7, 7⟩ "xyz".data "d" = .error .valueError)
    ∧ TextChunker.chunk_text_by_size ⟨7, 7⟩ "xyz".data "d" = .error .valueError
    ∧ TextChunker.chunk_text_by_size ⟨2, 9⟩ "xyz".data "d" = .ok [] :=
  ⟨(c4_amended_no_validation 7 7 "xyz".data "d").1,
    (c4_amended_no_validation 7 7 "xyz".data "d").1 rfl,
    (c4_amended_no_validation 2 9 "xyz".data "d").2.1 (by decide)⟩

/-- `DocumentMetadata` dataclass (`vector_store.py` lines 16-25). -/
structure DocumentMetadata where
  chunk_id : String
  source_file : String
  chunk_index : ℕ
  total_chunks : ℕ
  start_char : ℤ
  end_char : ℤ
  content : List Char
deriving DecidableEq

instance : Inhabited DocumentMetadata :=
  ⟨⟨"", "", 0, 0, 0, 0, []⟩⟩

/-- In-memory state of `FAISSVectorStore` (`vector_store.py` lines 52-67):
the fixed dimension, the rows held by the FAISS `IndexFlatL2` (in insertion
order), the metadata list, and the separately kept raw embedding matrix. -/
structure FAISSVectorStore where
  dimension : ℕ
  index : List (List ℚ)
  metadata : List DocumentMetadata
  embeddings : List (List ℚ)
deriving DecidableEq

/-- `FAISSVectorStore.__init__(dimension)`: a fresh empty store. -/
def FAISSVectorStore.init (dimension : ℕ) : FAISSVectorStore :=
  { dimension := dimension, index := [], metadata := [], embeddings := [] }

/-- The metadata record built from a chunk by `add_documents`
(`vector_store.py` lines 81-91). -/
def metadataOfChunk (c : TextChunk) : DocumentMetadata :=
  { chunk_id := c.chunk_id
    source_file := c.source_file
    chunk_index := c.chunk_index
    total_chunks := c.total_chunks
    start_char := c.start_char
    end_char := c.end_char
    content := c.content }

/-- The common row width of a batch of embeddings (the second dimension of
`np.array(embeddings)`). -/
def embWidth (embeddings : List (List ℚ)) : ℕ :=
  (embeddings.headD []).length

/-- `np.array(embeddings, dtype=np.float32)` requires a rectangular nested
list, else it raises `ValueError`. -/
def embRectangular (embeddings : List (List ℚ)) : Prop :=
  ∀ v ∈ embeddings, v.length = embWidth embeddings

instance (embeddings : List (List ℚ)) : Decidable (embRectangular embeddings) :=
  List.decidableBAll _ embeddings

/-- `FAISSVectorStore.add_documents` (`vector_store.py` lines 69-96).
Returns the post-call state and `none` on normal return, or the state left
behind and the exception raised: `np.array` raises `ValueError` on a ragged
batch and `index.add` raises when the batch width differs from the index
dimension — both before any of the three containers is mutated. -/
def FAISSVectorStore.add_documents (s : FAISSVectorStore) (chunks : List TextChunk)
    (embeddings : List (List ℚ)) : FAISSVectorStore × Option PyErr :=
  if chunks = [] ∨ embeddings = [] then (s, none)
  else if ¬ embRectangular embeddings then (s, some .valueError)
  else if embWidth embeddings ≠ s.dimension then (s, some .dimensionError)
  else
    ({ s with
        index := s.index ++ embeddings
        metadata := s.metadata ++ chunks.map metadataOfChunk
        embeddings := s.embeddings ++ embeddings }, none)

/-- Squared Euclidean distance between two same-length vectors: this is the
quantity FAISS `IndexFlatL2` computes and returns as `distances` (the FAISS
`METRIC_L2` is documented to be the *squared* L2 distance; no square root is
ever taken). -/
def sqDist (q v : List ℚ) : ℚ :=
  (List.zipWith (fun a b => (a - b) ^ 2) q v).sum

/-- Search ranking order on `(row, squared distance)` pairs: by distance,
ties broken by ascending row index. -/
def distLT (a b : ℕ × ℚ) : Prop :=
  a.2 < b.2 ∨ (a.2 = b.2 ∧ a.1 ≤ b.1)

instance : DecidableRel distLT := fun a b =>
  inferInstanceAs (Decidable (_ ∨ _))

instance : IsTotal (ℕ × ℚ) distLT :=
  ⟨by
    intro a b
    unfold distLT
    rcases lt_trichotomy a.2 b.2 with h | h | h
    · exact Or.inl (Or.inl h)
    · rcases Nat.le_total a.1 b.1 with h1 | h1
      · exact Or.inl (Or.inr ⟨h, h1⟩)
      · exact Or.inr (Or.inr ⟨h.symm, h1⟩)
    · exact Or.inr (Or.inl h)⟩

instance : IsTrans (ℕ × ℚ) distLT :=
  ⟨by
    intro a b c hab hbc
    unfold distLT at hab hbc ⊢
    rcases hab with h | ⟨h, h1⟩ <;> rcases hbc with h2 | ⟨h2, h3⟩
    · exact Or.inl (h.trans h2)
    · exact Or.inl (h2 ▸ h)
    · exact Or.inl (h ▸ h2)
    · exact Or.inr ⟨h.trans h2, h1.trans h3⟩⟩

/-- The `(row, squared distance)` pairs of every stored vector against the
query, in ranking order: this models what FAISS `IndexFlatL2.search` returns
(all rows, exactly scanned, ordered by ascending squared L2 distance, ties by
ascending row) before the caller truncates to `k`. -/
def searchSorted (s : FAISSVectorStore) (q : List ℚ) : List (ℕ × ℚ) :=
  List.insertionSort distLT (s.index.enum.map (fun p => (p.1, sqDist q p.2)))

/-- `FAISSVectorStore.search` (`vector_store.py` lines 98-112): the query is
packed as a 1-row array and handed to FAISS together with
`min(top_k, len(self.metadata))`.  The FAISS Python wrapper first asserts
that the query width equals the index dimension and then that `k > 0`
(`replacement_search`; `FAISS_THROW_IF_NOT` guards the same in the C++
`IndexFlat::search`), so a width-mismatched query — and in particular the
`k = 0` call produced by an empty store — raises `AssertionError` before any
scan happens.  Otherwise the call yields the nearest rows by squared L2
distance and each surviving row (`idx < len(self.metadata)`) is reported as
`(chunk_id, 1 / (1 + distance))`. -/
def FAISSVectorStore.search (s : FAISSVectorStore) (q : List ℚ) (top_k : ℕ) :
    List (String × ℚ) × Option PyErr :=
  if q.length ≠ s.dimension then ([], some .assertionError)
  else if min top_k s.metadata.length = 0 then ([], some .assertionError)
  else
    ((((searchSorted s q).take (min top_k s.metadata.length)).filter
        (fun p => decide (p.1 < s.metadata.length))).map
      (fun p => ((s.metadata.getD p.1 default).chunk_id, 1 / (1 + p.2))), none)

/-- The two shapes in which the on-disk `metadata.json` artifact can be
encountered: the bare list the current code writes, or a legacy object
wrapping the list under a named key (as the spec describes).  A JSON object
iterates as its keys in Python, which is what `load` does with it. -/
inductive MetaJson where
  | bare (records : List DocumentMetadata)
  | wrapped (key : String) (records : List DocumentMetadata)
deriving DecidableEq

/-- The artifacts present in a vector-store directory: each of the three
files may be present or absent (`load` checks `os.path.exists` per file). -/
structure DiskStore where
  indexFile : Option (List (List ℚ))
  metadataFile : Option MetaJson
  embeddingsFile : Option (List (List ℚ))
deriving DecidableEq

/-- Replacing `self.embeddings` from `embeddings.npy` when present
(`vector_store.py` lines 161-164). -/
def applyEmbFile (s : FAISSVectorStore) (o : Option (List (List ℚ))) : FAISSVectorStore :=
  match o with
  | some rows => { s with embeddings := rows }
  | none => s

/-- `FAISSVectorStore.load` (`vector_store.py` lines 141-166).  `none` for
`disk` models a missing directory: the method logs a warning and returns with
the store untouched.  Otherwise each present artifact is loaded in order:
index, then metadata, then embeddings.  A wrapped (legacy) metadata object
raises `TypeError`: the list comprehension iterates the object's keys, and
`DocumentMetadata(**key)` fails on a string — at that point the index file
has already been applied, and `self.metadata` is left unassigned.  No count
verification of any kind is performed. -/
def FAISSVectorStore.load (s : FAISSVectorStore) (disk : Option DiskStore) :
    FAISSVectorStore × Option PyErr :=
  match disk with
  | none => (s, none)
  | some d =>
    let s1 := match d.indexFile with
      | some rows => { s with index := rows }
      | none => s
    match d.metadataFile with
    | some (.wrapped _ _) => (s1, some .typeError)
    | some (.bare ms) => (applyEmbFile { s1 with metadata := ms } d.embeddingsFile, none)
    | none => (applyEmbFile s1 d.embeddingsFile, none)

/-- `FAISSVectorStore.get_size` (`vector_store.py` lines 168-170). -/
def FAISSVectorStore.get_size (s : FAISSVectorStore) : ℕ :=
  s.metadata.length

/-- In-memory state of `VectorStoreManager` (`vector_store.py` lines
177-187); the persistence path is kept abstract. -/
structure VectorStoreManager where
  vector_store : FAISSVectorStore
deriving DecidableEq

/-- The statistics dictionary of `VectorStoreManager.get_statistics`
(`vector_store.py` lines 216-228); the Python `set` of source files is
modelled as deduplication. -/
structure Statistics where
  total_chunks : ℕ
  unique_documents : ℕ
  document_files : List String
  dimension : ℕ
deriving DecidableEq

/-- `VectorStoreManager.get_statistics`. -/
def VectorStoreManager.get_statistics (m : VectorStoreManager) : Statistics :=
  let source_files := (m.vector_store.metadata.map (fun md => md.source_file)).dedup
  { total_chunks := m.vector_store.get_size
    unique_documents := source_files.length
    document_files := source_files
    dimension := m.vector_store.dimension }

/-- `VectorStoreManager.clear` (`vector_store.py` lines 230-264), in-memory
effect: the store is replaced by a fresh `FAISSVectorStore` of the same
dimension (the file deletions the method also performs are I/O side effects
outside this model). -/
def VectorStoreManager.clear (m : VectorStoreManager) : VectorStoreManager :=
  { m with vector_store := FAISSVectorStore.init m.vector_store.dimension }

/-- On a non-empty batch of equal-length chunk/embedding lists whose vectors
all have the index dimension, `add_documents` takes its success path and
appends to all three containers. -/
lemma add_documents_ok (s : FAISSVectorStore) (chunks : List TextChunk)
    (embs : List (List ℚ)) (hne : chunks ≠ []) (hlen : embs.length = chunks.length)
    (hdim : ∀ v ∈ embs, v.length = s.dimension) :
    s.add_documents chunks embs =
      ({ s with
          index := s.index ++ embs
          metadata := s.metadata ++ chunks.map metadataOfChunk
          embeddings := s.embeddings ++ embs }, none) := by
  have hene : embs ≠ [] := by
    intro h
    apply hne
    rw [h] at hlen
    exact List.length_eq_zero.mp hlen.symm
  obtain ⟨v0, vs, rfl⟩ := List.exists_cons_of_ne_nil hene
  have hw : embWidth (v0 :: vs) = s.dimension := hdim v0 (List.mem_cons_self _ _)
  have hrect : embRectangular (v0 :: vs) := by
    intro v hv
    rw [hdim v hv, hw]
  simp [FAISSVectorStore.add_documents, hne, hrect, hw]

/-- Every failing call of `add_documents` leaves the store untouched. -/
lemma add_documents_err (s : FAISSVectorStore) (chunks : List TextChunk)
    (embs : List (List ℚ)) (e : PyErr)
    (h : (s.add_documents chunks embs).2 = some e) :
    (s.add_documents chunks embs).1 = s := by
  unfold FAISSVectorStore.add_documents at h ⊢
  split_ifs at h ⊢ <;> rfl

/-- Claim C1: for every call to `add_documents` with a non-empty list of
chunks and an equal-length list of embeddings of the index dimension, the
call completes, the metadata count equals the row count afterwards (equal to
the old count plus the batch size), and any failing call mutates nothing. -/
theorem c1_add_documents_alignment (s : FAISSVectorStore) (chunks : List TextChunk)
    (embs : List (List ℚ)) (hne : chunks ≠ []) (hlen : embs.length = chunks.length)
    (hdim : ∀ v ∈ embs, v.length = s.dimension)
    (halign : s.metadata.length = s.index.length) :
    (s.add_documents chunks embs).2 = none
    ∧ (s.add_documents chunks embs).1.metadata.length =
        (s.add_documents chunks embs).1.index.length
    ∧ (s.add_documents chunks embs).1.metadata.length =
        s.metadata.length + chunks.length
    ∧ ∀ (chunks2 : List TextChunk) (embs2 : List (List ℚ)) (e : PyErr),
        (s.add_documents chunks2 embs2).2 = some e →
          (s.add_documents chunks2 embs2).1 = s := by
  rw [add_documents_ok s chunks embs hne hlen hdim]
  refine ⟨rfl, ?_, ?_, fun chunks2 embs2 e h => add_documents_err s chunks2 embs2 e h⟩
  · simp [halign, hlen]
  · simp

/-- Witness for C1 on a concrete store and batch. -/
theorem c1_witness :
    (⟨['x'], "c", "f", 0, 1, 0, 1⟩ :: []) ≠ ([] : List TextChunk)
    ∧ ((FAISSVectorStore.init 2).add_documents
          [⟨['x'], "c", "f", 0, 1, 0, 1⟩] [[1, 2]]).2 = none
    ∧ ((FAISSVectorStore.init 2).add_documents
          [⟨['x'], "c", "f", 0, 1, 0, 1⟩] [[1, 2]]).1.metadata.length =
        ((FAISSVectorStore.init 2).add_documents
          [⟨['x'], "c", "f", 0, 1, 0, 1⟩] [[1, 2]]).1.index.length :=
  ⟨by decide,
    (c1_add_documents_alignment (FAISSVectorStore.init 2) _ _
      (by decide) (by decide) (by decide) rfl).1,
    (c1_add_documents_alignment (FAISSVectorStore.init 2) _ _
      (by decide) (by decide) (by decide) rfl).2.1⟩

/-- A concrete store directory whose metadata artifact holds one record while
the index and vector artifacts hold two rows. -/
def diskMismatch : DiskStore :=
  { indexFile := some [[0], [1]]
    metadataFile := some (.bare [⟨"c0", "f", 0, 1, 0, 1, ['x']⟩])
    embeddingsFile := some [[0], [1]] }

/-- Counterexample to claim C5: loading a directory whose metadata-record
count (1) differs from its vector row count (2) raises nothing at all — the
call returns normally and silently installs a misaligned store. -/
theorem c5_counterexample :
    ((FAISSVectorStore.init 1).load (some diskMismatch)).2 = none
    ∧ ((FAISSVectorStore.init 1).load (some diskMismatch)).1.metadata.length = 1
    ∧ ((FAISSVectorStore.init 1).load (some diskMismatch)).1.index.length = 2 := by
  refine ⟨rfl, rfl, rfl⟩

/-- Claim C5 as amended: `load` performs no count verification whatsoever —
any combination of bare-list metadata and vector rows loads without error,
mismatched or not (there is no `CorruptStoreError` in the code); a missing
directory is indeed not an error: the store is returned untouched, so a
fresh store stays empty and still accepts appends of vectors of its
dimension.  (Searching that empty store, however, raises FAISS's
`AssertionError` rather than returning results, because the clamped `k` is
`0` — so the store is usable for appends, not for queries, until something
is added.) -/
theorem c5_amended_load_no_verification (s : FAISSVectorStore)
    (rows : List (List ℚ)) (ms : List DocumentMetadata) (embs2 : List (List ℚ)) :
    s.load (some ⟨some rows, some (.bare ms), some embs2⟩) =
      ({ s with index := rows, metadata := ms, embeddings := embs2 }, none)
    ∧ s.load none = (s, none)
    ∧ (∀ d : ℕ, ((FAISSVectorStore.init d).load none).1 = FAISSVectorStore.init d)
    ∧ ∀ (d : ℕ) (chunks : List TextChunk) (embs : List (List ℚ)),
        chunks ≠ [] → embs.length = chunks.length → (∀ v ∈ embs, v.length = d) →
        ((((FAISSVectorStore.init d).load none).1).add_documents chunks embs).2 =
          none := by
  refine ⟨rfl, rfl, fun d => rfl, fun d chunks embs h1 h2 h3 => ?_⟩
  have h3d : ∀ v ∈ embs,
      v.length = (((FAISSVectorStore.init d).load none).1).dimension := h3
  rw [add_documents_ok _ chunks embs h1 h2 h3d]

/-- Witness for the amended C5 at a concrete dimension and batch. -/
theorem c5_witness :
    ((FAISSVectorStore.init 3).load none).1 = FAISSVectorStore.init 3
    ∧ ((((FAISSVectorStore.init 3).load none).1).add_documents
          [⟨['z'], "c3", "h", 0, 1, 0, 1⟩] [[5, 6, 7]]).2 = none :=
  ⟨(c5_amended_load_no_verification (FAISSVectorStore.init 3) [] [] []).2.2.1 3,
    (c5_amended_load_no_verification (FAISSVectorStore.init 3) [] [] []).2.2.2 3
      [⟨['z'], "c3", "h", 0, 1, 0, 1⟩] [[5, 6, 7]] (by decide) (by decide) (by decide)⟩

/-- A concrete metadata record for the load-shape counterexample. -/
def recA : DocumentMetadata := ⟨"c0", "f", 0, 1, 0, 1, ['x']⟩

/-- Counterexample to claim C6: the same single record loaded from the bare
list shape succeeds, but from the legacy wrapped-object shape `load` raises
`TypeError` (iterating the object yields its key string, and
`DocumentMetadata(**"metadata")` is a `TypeError`); the two shapes do not
produce identical in-memory metadata. -/
theorem c6_counterexample :
    ((FAISSVectorStore.init 1).load
        (some ⟨none, some (.wrapped "metadata" [recA]), none⟩)).2 = some .typeError
    ∧ ((FAISSVectorStore.init 1).load
        (some ⟨none, some (.bare [recA]), none⟩)).2 = none
    ∧ ((FAISSVectorStore.init 1).load
          (some ⟨none, some (.wrapped "metadata" [recA]), none⟩)).1.metadata ≠
        ((FAISSVectorStore.init 1).load
          (some ⟨none, some (.bare [recA]), none⟩)).1.metadata := by
  refine ⟨rfl, rfl, by decide⟩

/-- Claim C6 as amended: `load` accepts only the bare-list metadata shape;
the legacy wrapped-object shape always raises `TypeError` and leaves
`self.metadata` unassigned. -/
theorem c6_amended_load_shapes (s : FAISSVectorStore) (key : String)
    (ms : List DocumentMetadata) :
    (s.load (some ⟨none, some (.bare ms), none⟩)).1.metadata = ms
    ∧ (s.load (some ⟨none, some (.bare ms), none⟩)).2 = none
    ∧ (s.load (some ⟨none, some (.wrapped key ms), none⟩)).2 = some .typeError
    ∧ (s.load (some ⟨none, some (.wrapped key ms), none⟩)).1.metadata = s.metadata :=
  ⟨rfl, rfl, rfl, rfl⟩

/-- Squared distances are non-negative. -/
lemma sqDist_nonneg : ∀ q v : List ℚ, 0 ≤ sqDist q v
  | [], _ => by simp [sqDist]
  | _ :: _, [] => by simp [sqDist]
  | a :: q, b :: v => by
    have ih := sqDist_nonneg q v
    simp only [sqDist, List.zipWith_cons_cons, List.sum_cons] at ih ⊢
    exact add_nonneg (sq_nonneg _) ih

/-- The squared distance of a vector to itself is zero. -/
lemma sqDist_self : ∀ q : List ℚ, sqDist q q = 0
  | [] => by simp [sqDist]
  | a :: q => by
    have ih := sqDist_self q
    simp only [sqDist, List.zipWith_cons_cons, List.sum_cons] at ih ⊢
    simp [ih]

/-- The ranked scan has one entry per stored row. -/
lemma searchSorted_length (s : FAISSVectorStore) (q : List ℚ) :
    (searchSorted s q).length = s.index.length := by
  simp [searchSorted]

/-- Every entry of the ranked scan carries a valid row number. -/
lemma mem_searchSorted_fst_lt (s : FAISSVectorStore) (q : List ℚ) (p : ℕ × ℚ)
    (hp : p ∈ searchSorted s q) : p.1 < s.index.length := by
  rw [searchSorted, List.mem_insertionSort] at hp
  obtain ⟨x, hx, rfl⟩ := List.mem_map.mp hp
  have := List.mem_enum_iff_getElem?.mp hx
  have := List.getElem?_eq_some.mp this
  exact this.1

/-- Every entry of the ranked scan carries a non-negative squared distance. -/
lemma mem_searchSorted_nonneg (s : FAISSVectorStore) (q : List ℚ) (p : ℕ × ℚ)
    (hp : p ∈ searchSorted s q) : 0 ≤ p.2 := by
  rw [searchSorted, List.mem_insertionSort] at hp
  obtain ⟨x, _, rfl⟩ := List.mem_map.mp hp
  exact sqDist_nonneg q x.2

/-- Every entry of the ranked scan scores some stored row. -/
lemma mem_searchSorted_exists_row (s : FAISSVectorStore) (q : List ℚ) (p : ℕ × ℚ)
    (hp : p ∈ searchSorted s q) : ∃ v ∈ s.index, p.2 = sqDist q v := by
  rw [searchSorted, List.mem_insertionSort] at hp
  obtain ⟨x, hx, rfl⟩ := List.mem_map.mp hp
  refine ⟨x.2, ?_, rfl⟩
  have := List.mem_enum_iff_getElem?.mp hx
  exact List.getElem?_mem this

/-- On an aligned store, a dimension-matching query with a non-zero clamped
`k` passes both FAISS asserts; the row filter inside `search` keeps every
hit, so the result length is exactly `min k (row count)`. -/
lemma search_length (s : FAISSVectorStore) (q : List ℚ) (k : ℕ)
    (halign : s.metadata.length = s.index.length)
    (hq : q.length = s.dimension) (hk : min k s.metadata.length ≠ 0) :
    ((s.search q k).1).length = min k s.index.length := by
  unfold FAISSVectorStore.search
  rw [if_neg (by simp [hq]), if_neg hk]
  rw [List.filter_eq_self.mpr ?_]
  · rw [List.length_map, List.length_take, searchSorted_length, halign]
    omega
  · intro p hp
    have hmem := List.mem_of_mem_take hp
    exact decide_eq_true (halign ▸ mem_searchSorted_fst_lt s q p hmem)

/-- Claim C7, settled against the code: the clamping half is true — on an
aligned store, a dimension-matching query whose clamped `k` is non-zero gets
exactly `min k row_count` results, so `k` greater than the row count returns
exactly `row_count` results — but the empty-store half is a code bug: there
`min(top_k, len(self.metadata))` is `0` and FAISS asserts `k > 0`, so
`search` on an empty store raises `AssertionError` instead of returning the
empty sequence the spec promises.  The first two conjuncts evaluate the code
at the failing input. -/
theorem c7_search_empty_store_raises :
    ((FAISSVectorStore.init 4).search [1, 2, 3, 4] 9).2 = some .assertionError
    ∧ ((FAISSVectorStore.init 4).search [1, 2, 3, 4] 9).1 = []
    ∧ ∀ (s : FAISSVectorStore) (q : List ℚ) (k : ℕ),
        s.metadata.length = s.index.length → q.length = s.dimension →
        min k s.metadata.length ≠ 0 →
        (s.search q k).2 = none
        ∧ ((s.search q k).1).length = min k s.index.length
        ∧ (s.index.length < k → ((s.search q k).1).length = s.index.length) := by
  refine ⟨rfl, rfl, fun s q k halign hq hk => ?_⟩
  refine ⟨?_, search_length s q k halign hq hk, fun h => ?_⟩
  · unfold FAISSVectorStore.search
    rw [if_neg (by simp [hq]), if_neg hk]
  · rw [search_length s q k halign hq hk]
    omega

/-- Witness for C7's provable half on a concrete aligned two-row store. -/
theorem c7_witness :
    ((⟨1, [[0], [2]], [recA, recA], [[0], [2]]⟩ :
        FAISSVectorStore).search [0] 5).2 = none
    ∧ (((⟨1, [[0], [2]], [recA, recA], [[0], [2]]⟩ :
        FAISSVectorStore).search [0] 5).1).length =
      min 5 ([[0], [2]] : List (List ℚ)).length :=
  ⟨(c7_search_empty_store_raises.2.2 ⟨1, [[0], [2]], [recA, recA], [[0], [2]]⟩ [0] 5
      rfl rfl (by decide)).1,
    (c7_search_empty_store_raises.2.2 ⟨1, [[0], [2]], [recA, recA], [[0], [2]]⟩ [0] 5
      rfl rfl (by decide)).2.1⟩

/-- Claim C10: `VectorStoreManager.clear` installs a fresh empty store of the
same dimension: statistics afterwards report the original dimension with zero
chunks and zero unique documents, and subsequent appends of vectors of that
dimension still succeed. -/
theorem c10_clear_preserves_dimension (m : VectorStoreManager) :
    m.clear.vector_store.dimension = m.vector_store.dimension
    ∧ m.clear.get_statistics =
        { total_chunks := 0, unique_documents := 0, document_files := [],
          dimension := m.vector_store.dimension }
    ∧ ∀ (chunks : List TextChunk) (embs : List (List ℚ)), chunks ≠ [] →
        embs.length = chunks.length →
        (∀ v ∈ embs, v.length = m.vector_store.dimension) →
        (m.clear.vector_store.add_documents chunks embs).2 = none
        ∧ (m.clear.vector_store.add_documents chunks embs).1.metadata.length =
            chunks.length := by
  refine ⟨rfl, ?_, fun chunks embs h1 h2 h3 => ?_⟩
  · simp [VectorStoreManager.clear, VectorStoreManager.get_statistics,
      FAISSVectorStore.init, FAISSVectorStore.get_size]
  · have h3c : ∀ v ∈ embs, v.length = m.clear.vector_store.dimension := h3
    rw [add_documents_ok m.clear.vector_store chunks embs h1 h2 h3c]
    refine ⟨rfl, ?_⟩
    simp [VectorStoreManager.clear, FAISSVectorStore.init, h2]

/-- A concrete chunk for the C10 witness. -/
def chunkB : TextChunk := ⟨['y'], "c2", "g", 0, 1, 0, 1⟩

/-- A concrete non-empty manager for the C10 witness. -/
def mgrB : VectorStoreManager := ⟨⟨2, [[1, 1]], [recA], [[1, 1]]⟩⟩

/-- Witness for C10 on a concrete manager holding one row. -/
theorem c10_witness :
    mgrB.clear.vector_store.dimension = mgrB.vector_store.dimension
    ∧ (mgrB.clear.vector_store.add_documents [chunkB] [[3, 4]]).2 = none
    ∧ (mgrB.clear.vector_store.add_documents [chunkB] [[3, 4]]).1.metadata.length =
        ([chunkB] : List TextChunk).length :=
  ⟨(c10_clear_preserves_dimension mgrB).1,
    ((c10_clear_preserves_dimension mgrB).2.2 [chunkB] [[3, 4]]
      (by decide) (by decide) (by decide)).1,
    ((c10_clear_preserves_dimension mgrB).2.2 [chunkB] [[3, 4]]
      (by decide) (by decide) (by decide)).2⟩

/-- Strengthening a pairwise relation using membership. -/
lemma pairwise_imp_mem {α : Type} {R S : α → α → Prop} : ∀ {l : List α},
    (∀ a ∈ l, ∀ b ∈ l, R a b → S a b) → l.Pairwise R → l.Pairwise S
  | [], _, _ => List.Pairwise.nil
  | a :: l, H, hp => by
    rcases List.pairwise_cons.mp hp with ⟨h1, h2⟩
    refine List.pairwise_cons.mpr ⟨?_, ?_⟩
    · exact fun b hb =>
        H a (List.mem_cons_self _ _) b (List.mem_cons_of_mem _ hb) (h1 b hb)
    · exact pairwise_imp_mem
        (fun x hx y hy => H x (List.mem_cons_of_mem _ hx) y (List.mem_cons_of_mem _ hy)) h2

/-- On an aligned store, a dimension-matching query with a non-zero clamped
`k` passes both FAISS asserts, and the row filter inside `search` is the
identity. -/
lemma search_eq_of_aligned (s : FAISSVectorStore) (q : List ℚ) (k : ℕ)
    (halign : s.metadata.length = s.index.length)
    (hq : q.length = s.dimension) (hk : min k s.metadata.length ≠ 0) :
    s.search q k =
      (((searchSorted s q).take (min k s.metadata.length)).map
        (fun p => ((s.metadata.getD p.1 default).chunk_id, 1 / (1 + p.2))), none) := by
  unfold FAISSVectorStore.search
  rw [if_neg (by simp [hq]), if_neg hk]
  rw [List.filter_eq_self.mpr]
  intro p hp
  exact decide_eq_true (halign ▸ mem_searchSorted_fst_lt s q p (List.mem_of_mem_take hp))

/-- A stored row appears in the ranked scan with its squared distance. -/
lemma row_mem_searchSorted (s : FAISSVectorStore) (q v : List ℚ) (j : ℕ)
    (hj : s.index[j]? = some v) : (j, sqDist q v) ∈ searchSorted s q := by
  rw [searchSorted, List.mem_insertionSort]
  exact List.mem_map_of_mem _ (List.mk_mem_enum_iff_getElem?.mpr hj)

/-- The scan is sorted by the ranking order. -/
lemma searchSorted_sorted (s : FAISSVectorStore) (q : List ℚ) :
    List.Sorted distLT (searchSorted s q) :=
  List.sorted_insertionSort distLT _

/-- Claim C3 as amended: with the caveat that FAISS `IndexFlatL2` scores are
`1 / (1 + d²)` for Euclidean distance `d` (the library returns *squared* L2
distances and `search` applies `1 / (1 + distance)` to them), the rest of the
claim holds: on an aligned store containing the query itself (a query of the
index dimension, so neither FAISS assert fires), `search` returns without
error a non-empty ranking whose first similarity is exactly `1`, with
similarities in `(0, 1]`, in decreasing order, and each score is
`1 / (1 + sqDist q v)` for some stored row `v`. -/
theorem c3_amended_search_ranking (s : FAISSVectorStore) (q : List ℚ) (k j : ℕ)
    (halign : s.metadata.length = s.index.length)
    (hj : s.index[j]? = some q) (hq : q.length = s.dimension) (hk : 1 ≤ k) :
    (s.search q k).2 = none
    ∧ (s.search q k).1 ≠ []
    ∧ ((s.search q k).1).head?.map Prod.snd = some 1
    ∧ (((s.search q k).1).map Prod.snd).Sorted (fun a b => b ≤ a)
    ∧ (∀ p ∈ (s.search q k).1, 0 < p.2 ∧ p.2 ≤ 1)
    ∧ (∀ p ∈ (s.search q k).1, ∃ v ∈ s.index, p.2 = 1 / (1 + sqDist q v)) := by
  have hjlt : j < s.index.length := (List.getElem?_eq_some.mp hj).1
  have hkk : 1 ≤ min k s.metadata.length := by
    rw [halign]; omega
  have hkne : min k s.metadata.length ≠ 0 := by omega
  have hfst : (s.search q k).1 =
      ((searchSorted s q).take (min k s.metadata.length)).map
        (fun p => ((s.metadata.getD p.1 default).chunk_id, 1 / (1 + p.2))) := by
    rw [search_eq_of_aligned s q k halign hq hkne]
  have hmem0 : (j, (0 : ℚ)) ∈ searchSorted s q := by
    have := row_mem_searchSorted s q q j hj
    rwa [sqDist_self] at this
  have hslen : (searchSorted s q).length = s.index.length := searchSorted_length s q
  have hsne : searchSorted s q ≠ [] := by
    intro h
    rw [h] at hslen
    simp at hslen
    omega
  obtain ⟨p0, rest, hseq⟩ := List.exists_cons_of_ne_nil hsne
  have hp0mem : p0 ∈ searchSorted s q := by rw [hseq]; exact List.mem_cons_self _ _
  have hp0nn : 0 ≤ p0.2 := mem_searchSorted_nonneg s q p0 hp0mem
  have hp0zero : p0.2 = 0 := by
    rw [hseq] at hmem0
    rcases List.mem_cons.mp hmem0 with h | h
    · rw [← h]
    · have hrel : distLT p0 (j, 0) :=
        List.rel_of_sorted_cons (hseq ▸ searchSorted_sorted s q) _ h
      rcases hrel with h1 | ⟨h1, _⟩
      · simp only at h1
        linarith
      · exact h1
  obtain ⟨kk, hkkeq⟩ : ∃ kk, min k s.metadata.length = kk + 1 :=
    ⟨min k s.metadata.length - 1, by omega⟩
  have htake : (searchSorted s q).take (min k s.metadata.length) =
      p0 :: rest.take kk := by
    rw [hseq, hkkeq]
    rfl
  have hsearch : (s.search q k).1 =
      ((s.metadata.getD p0.1 default).chunk_id, 1 / (1 + p0.2)) ::
        (rest.take kk).map
          (fun p => ((s.metadata.getD p.1 default).chunk_id, 1 / (1 + p.2))) := by
    rw [hfst, htake]
    rfl
  have htakemem : ∀ p ∈ (searchSorted s q).take (min k s.metadata.length),
      p ∈ searchSorted s q := fun p hp => List.mem_of_mem_take hp
  refine ⟨?_, ?_, ?_, ?_, ?_, ?_⟩
  · rw [search_eq_of_aligned s q k halign hq hkne]
  · rw [hsearch]
    exact List.cons_ne_nil _ _
  · rw [hsearch]
    simp [hp0zero]
  · rw [hfst, List.map_map]
    refine (List.pairwise_map).mpr ?_
    have hpw : ((searchSorted s q).take (min k s.metadata.length)).Pairwise distLT :=
      List.Pairwise.sublist (List.take_sublist _ _) (searchSorted_sorted s q)
    refine pairwise_imp_mem ?_ hpw
    intro a ha b hb hab
    have hann : 0 ≤ a.2 := mem_searchSorted_nonneg s q a (htakemem a ha)
    have hbnn : 0 ≤ b.2 := mem_searchSorted_nonneg s q b (htakemem b hb)
    have hle : a.2 ≤ b.2 := by
      rcases hab with h | ⟨h, _⟩
      · exact le_of_lt h
      · exact le_of_eq h
    exact one_div_le_one_div_of_le (by linarith) (by linarith)
  · intro p hp
    rw [hfst] at hp
    obtain ⟨x, hx, rfl⟩ := List.mem_map.mp hp
    have hxnn : 0 ≤ x.2 := mem_searchSorted_nonneg s q x (htakemem x hx)
    constructor
    · show 0 < 1 / (1 + x.2)
      positivity
    · show 1 / (1 + x.2) ≤ 1
      rw [div_le_one (by linarith)]
      linarith
  · intro p hp
    rw [hfst] at hp
    obtain ⟨x, hx, rfl⟩ := List.mem_map.mp hp
    obtain ⟨v, hv, hveq⟩ := mem_searchSorted_exists_row s q x (htakemem x hx)
    exact ⟨v, hv, by rw [hveq]⟩

/-- A second concrete metadata record. -/
def recB : DocumentMetadata := ⟨"c1", "f", 1, 2, 0, 1, ['y']⟩

/-- A concrete aligned two-row store whose second row equals the query used
in the C3 witness. -/
def storeC3 : FAISSVectorStore := ⟨1, [[0], [2]], [recA, recB], [[0], [2]]⟩

/-- Witness for the amended C3 on a concrete store containing the query. -/
theorem c3_witness :
    (storeC3.search [2] 1).2 = none
    ∧ (storeC3.search [2] 1).1 ≠ []
    ∧ ((storeC3.search [2] 1).1).head?.map Prod.snd = some 1 :=
  ⟨(c3_amended_search_ranking storeC3 [2] 1 1 rfl (by decide) rfl (by decide)).1,
    (c3_amended_search_ranking storeC3 [2] 1 1 rfl (by decide) rfl (by decide)).2.1,
    (c3_amended_search_ranking storeC3 [2] 1 1 rfl (by decide) rfl (by decide)).2.2.1⟩

/-- A concrete aligned one-row store for the C3 counterexample. -/
def storeOne : FAISSVectorStore := ⟨1, [[0]], [recA], [[0]]⟩

/-- Counterexample to claim C3 as stated: the stored vector `[0]` lies at
Euclidean distance 2 from the query `[2]`, so the claimed score would be
`1 / (1 + 2) = 1/3`; the code actually reports `1/5 = 1 / (1 + 2²)` because
FAISS `IndexFlatL2` hands back the squared L2 distance. -/
theorem c3_counterexample :
    (storeOne.search [2] 1).1 = [("c0", 1 / 5)]
    ∧ (storeOne.search [2] 1).2 = none
    ∧ sqDist [2] [0] = 2 ^ 2
    ∧ (1 : ℚ) / 5 = 1 / (1 + 2 ^ 2)
    ∧ (1 : ℚ) / 5 ≠ 1 / (1 + 2) := by
  refine ⟨?_, ?_, by norm_num [sqDist], by norm_num, by norm_num⟩
  · norm_num [FAISSVectorStore.search, searchSorted, storeOne, List.insertionSort,
      sqDist, distLT, recA]
  · norm_num [FAISSVectorStore.search, searchSorted, storeOne, List.insertionSort,
      sqDist, distLT, recA]

/-- The embedding cache `self.embedding_cache : Dict[str, List[float]]`
modelled as a lookup function. -/
def EmbCache : Type := String → Option (List ℚ)

/-- `EmbeddingManager.embed_text` (`embedding.py` lines 119-129), for a
deterministic underlying embedding capability `f` (so
`self.model.embed_text = f` and `self.model.embed_texts = List.map f`).
Returns the embedding and the cache after the call. -/
def EmbeddingManager.embed_text (f : String → List ℚ) (cache : EmbCache)
    (text : String) (use_cache : Bool) : List ℚ × EmbCache :=
  match use_cache, cache text with
  | true, some v => (v, cache)
  | true, none =>
    let embedding := f text
    (embedding, fun s => if s = text then some embedding else cache s)
  | false, _ =>
    (f text, cache)

/-- The first `for i, text in enumerate(texts)` loop of
`EmbeddingManager.embed_texts` (`embedding.py` lines 137-143), started at
position `i`: builds the `embeddings` list (every slot `None`), the
`texts_to_embed` list and the parallel `text_indices` list. -/
def embedTextsScan (cache : EmbCache) (use_cache : Bool) :
    List String → ℕ → List (Option (List ℚ)) × List String × List ℕ
  | [], _ => ([], [], [])
  | t :: ts, i =>
    let r := embedTextsScan cache use_cache ts (i + 1)
    if use_cache && (cache t).isSome then
      (none :: r.1, r.2.1, r.2.2)
    else
      (none :: r.1, t :: r.2.1, i :: r.2.2)

/-- The distinct-or-not list of texts actually sent to
`self.model.embed_texts` by a batch call (empty means the model is not
invoked at all). -/
def textsToEmbed (cache : EmbCache) (use_cache : Bool) (texts : List String) :
    List String :=
  (embedTextsScan cache use_cache texts 0).2.1

/-- `EmbeddingManager.embed_texts` (`embedding.py` lines 131-153), for a
deterministic underlying capability `f`.  Slots of the returned list are
`Option`s because the code initialises every slot to `None` and only the
slots listed in `text_indices` are ever overwritten.  The model is invoked
once, on `texts_to_embed`, duplicates included. -/
def EmbeddingManager.embed_texts (f : String → List ℚ) (cache : EmbCache)
    (texts : List String) (use_cache : Bool) :
    List (Option (List ℚ)) × EmbCache :=
  let scan := embedTextsScan cache use_cache texts 0
  let embeddings := scan.1
  let texts_to_embed := scan.2.1
  let text_indices := scan.2.2
  if texts_to_embed = [] then (embeddings, cache)
  else
    let new_embeddings := texts_to_embed.map f
    (text_indices.zip new_embeddings).foldl
      (fun st p =>
        (st.1.set p.1 (some p.2),
          if use_cache then
            fun s => if s = texts.getD p.1 "" then some p.2 else st.2 s
          else st.2))
      (embeddings, cache)

/-- Setting the slot just past a prefix writes into the head of the suffix. -/
lemma set_append_length {α : Type} (l1 l2 : List α) (a : α) :
    (l1 ++ l2).set l1.length a = l1 ++ l2.set 0 a := by
  induction l1 with
  | nil => rfl
  | cons x l1 ih =>
    change x :: (l1 ++ l2).set l1.length a = x :: (l1 ++ l2.set 0 a)
    rw [ih]

/-- With an empty cache the scan marks every position as a miss: all slots
`None`, every text queued in order, indices consecutive. -/
lemma embedTextsScan_empty_cache : ∀ (ts : List String) (i : ℕ),
    embedTextsScan (fun _ => none) true ts i =
      (ts.map (fun _ => none), ts, List.range' i ts.length)
  | [], _ => rfl
  | t :: ts, i => by
    simp [embedTextsScan, embedTextsScan_empty_cache ts (i + 1), List.range']

/-- The embeddings component of the fill loop ignores the cache component. -/
lemma foldl_pair_fst
    (upd : (List (Option (List ℚ)) × EmbCache) → ℕ × List ℚ → EmbCache) :
    ∀ (pairs : List (ℕ × List ℚ)) (es : List (Option (List ℚ))) (c : EmbCache),
      (pairs.foldl (fun st p => (st.1.set p.1 (some p.2), upd st p)) (es, c)).1 =
        pairs.foldl (fun es p => es.set p.1 (some p.2)) es
  | [], _, _ => rfl
  | p :: ps, es, c =>
    foldl_pair_fst upd ps (es.set p.1 (some p.2)) (upd (es, c) p)

/-- Filling consecutive slots of a blank tail with `some` values. -/
lemma foldl_set_range (vs : List (List ℚ)) : ∀ (pre : List (Option (List ℚ))),
    ((List.range' pre.length vs.length).zip vs).foldl
        (fun es p => es.set p.1 (some p.2)) (pre ++ List.replicate vs.length none) =
      pre ++ vs.map some := by
  induction vs with
  | nil => intro pre; simp
  | cons v vs ih =>
    intro pre
    have hrange : List.range' pre.length (vs.length + 1) =
        pre.length :: List.range' (pre.length + 1) vs.length := rfl
    simp only [List.length_cons, hrange, List.replicate_succ, List.zip_cons_cons,
      List.foldl_cons]
    rw [set_append_length]
    have happ : pre ++ (some v :: List.replicate vs.length none) =
        (pre ++ [some v]) ++ List.replicate vs.length none := by
      simp
    have hlen : pre.length + 1 = (pre ++ [some v]).length := by
      simp
    rw [show (none :: List.replicate vs.length none).set 0 (some v) =
        some v :: List.replicate vs.length none from rfl, happ, hlen, ih (pre ++ [some v])]
    simp

/-- On an empty cache, a batch call sends exactly the input texts (duplicates
included) to the model and fills every slot with `some (f text)`. -/
lemma embed_texts_empty_cache (f : String → List ℚ) (texts : List String) :
    textsToEmbed (fun _ => none) true texts = texts
    ∧ (EmbeddingManager.embed_texts f (fun _ => none) texts true).1 =
        texts.map (fun t => some (f t)) := by
  constructor
  · simp [textsToEmbed, embedTextsScan_empty_cache]
  · rcases hts : texts with _ | ⟨t, ts⟩
    · rfl
    · rw [← hts]
      have hne : texts ≠ [] := by rw [hts]; exact List.cons_ne_nil _ _
      unfold EmbeddingManager.embed_texts
      rw [embedTextsScan_empty_cache texts 0]
      rw [if_neg hne, foldl_pair_fst]
      have h1 : texts.map (fun _ => (none : Option (List ℚ))) =
          List.replicate (texts.map f).length none := by
        rw [List.length_map, List.map_const']
      have h2 : List.range' 0 texts.length =
          List.range' (([] : List (Option (List ℚ))).length) (texts.map f).length := by
        simp
      rw [h1, h2]
      have h3 := foldl_set_range (texts.map f) []
      rw [List.nil_append, List.nil_append] at h3
      rw [h3, List.map_map]
      rfl

/-- A deterministic underlying embedding capability for the C2 evaluation. -/
def exModel : String → List ℚ := fun _ => [1]

/-- A cache that already holds the text `"a"`. -/
def exCacheA : EmbCache := fun t => if t = "a" then some [2] else none

/-- Claim C2, evaluated at the failing input: with `"a"` present in the
cache, `embed_texts ["a"]` leaves position 0 as `None` (the cache-hit branch
of the loop appends `None` and never splices the cached vector back in),
whereas `embed_text "a"` returns the cached vector — so
`embed_texts(texts)[i] == embed_text(texts[i])` fails and a `None` slot is
returned. -/
theorem c2_embed_texts_cache_hit_none :
    (EmbeddingManager.embed_texts exModel exCacheA ["a"] true).1 = [none]
    ∧ (EmbeddingManager.embed_text exModel exCacheA "a" true).1 = [2]
    ∧ (EmbeddingManager.embed_texts exModel exCacheA ["a"] true).1 ≠
        [some (EmbeddingManager.embed_text exModel exCacheA "a" true).1] := by
  refine ⟨rfl, rfl, by decide⟩

/-- Counterexample to claim C9: on an empty cache,
`embed_texts ["a", "a", "b"]` sends `["a", "a", "b"]` — with `"a"` twice —
to the underlying capability, not the distinct missing texts. -/
theorem c9_counterexample :
    textsToEmbed (fun _ => none) true ["a", "a", "b"] = ["a", "a", "b"]
    ∧ (textsToEmbed (fun _ => none) true ["a", "a", "b"]).count "a" = 2
    ∧ ¬ (textsToEmbed (fun _ => none) true ["a", "a", "b"]).count "a" ≤ 1 := by
  refine ⟨rfl, by decide, by decide⟩

/-- Claim C9 as amended: a batch call on an empty cache sends all
cache-missing texts — duplicates included — to the underlying capability in
its single batched call, and (given a deterministic capability) every slot,
duplicates among them, receives the vector of its text; in particular
positions 0 and 1 of `embed_texts ["a", "a", "b"]` are identical vectors. -/
theorem c9_amended_batch_duplicates (f : String → List ℚ) (texts : List String)
    (a b : String) :
    textsToEmbed (fun _ => none) true texts = texts
    ∧ (EmbeddingManager.embed_texts f (fun _ => none) texts true).1 =
        texts.map (fun t => some (f t))
    ∧ (EmbeddingManager.embed_texts f (fun _ => none) [a, a, b] true).1 =
        [some (f a), some (f a), some (f b)] := by
  refine ⟨(embed_texts_empty_cache f texts).1, (embed_texts_empty_cache f texts).2, ?_⟩
  rw [(embed_texts_empty_cache f [a, a, b]).2]
  rfl
